import Mathlib

/-
Verification of the Argus backend core: the KPI plan-execution engine
(backend/app/services/kpi_engine.py) and the job pipeline
(backend/app/worker/main.py, backend/app/routers/kpis.py).

Modelling conventions for the shallow embedding:
* A DataFrame is a `Table`: a list of column names plus a list of rows,
  each row a total function from column name to `Val`.
* Cell values (`Val`) are: rationals (`num`, covering ints/floats and
  numeric-looking strings, which `pd.to_numeric` coerces), non-numeric
  text (`str`), timestamps (`date`, in integer seconds, the values
  `pd.to_datetime` produces or parses), and `null` (NaN/NaT/None).
* `pd.to_numeric(errors="coerce")` is `toNumeric`; cells without a numeric
  reading give `none` (pandas NaN).  `pd.to_datetime(errors="coerce")` is
  `toDatetime`; only `date` cells parse (date-parseable strings are
  embedded as `date` values directly).
* Scalar results are `Option ℚ`; a pandas NaN result (e.g. `mean` of a
  column with no numeric values) is modelled as `none`.  Every consumer
  of those results in the source drops NaN exactly where it drops
  None/absent (`pd.to_numeric(...).dropna()`), so the identification is
  observationally sound for the verified properties.
* Group keys are enumerated via `List.dedup` (pandas sorts group keys);
  no verified property depends on the enumeration order of groups, and
  tie-breaking of `sort_values`/`idxmax` is likewise order-insensitive in
  every verified statement.
-/

namespace Argus

/-- A cell value of a dataframe. -/
inductive Val where
  | num (q : ℚ)
  | str (s : String)
  | date (t : ℤ)
  | null
  deriving DecidableEq, Repr

/-- `pd.to_numeric(errors="coerce")` on one cell. -/
def toNumeric : Val → Option ℚ
  | .num q => some q
  | _ => none

/-- `pd.to_datetime(errors="coerce")` on one cell. -/
def toDatetime : Val → Option ℤ
  | .date t => some t
  | _ => none

/-- The cell stored after `pd.to_datetime(errors="coerce")`: a timestamp or NaT. -/
def parseDate (v : Val) : Val :=
  match toDatetime v with
  | some x => .date x
  | none => .null

/-- Python `str()` of a cell, used for group labels. -/
def valToString : Val → String
  | .num q => toString q
  | .str s => s
  | .date t => toString t
  | .null => "nan"

/-- Pandas elementwise `==`: NaN compares unequal to everything (itself included). -/
def valEq : Val → Val → Bool
  | .null, _ => false
  | _, .null => false
  | a, b => decide (a = b)

/-- Pandas elementwise `<`; comparisons across incompatible types do not match. -/
def valLt : Val → Val → Bool
  | .num a, .num b => decide (a < b)
  | .str a, .str b => decide (a < b)
  | .date a, .date b => decide (a < b)
  | _, _ => false

/-- Pandas elementwise `<=`; comparisons across incompatible types do not match. -/
def valLe : Val → Val → Bool
  | .num a, .num b => decide (a ≤ b)
  | .str a, .str b => decide (a ≤ b)
  | .date a, .date b => decide (a ≤ b)
  | _, _ => false

/-- A filter's comparison value (`value: Any` in the source): a scalar or a list. -/
inductive FilterVal where
  | scalar (v : Val)
  | list (vs : List Val)
  deriving DecidableEq, Repr

/-- `v if isinstance(v, list) else [v]` — the wrapping done by the `in` operator. -/
def filterValList : FilterVal → List Val
  | .scalar v => [v]
  | .list vs => vs

/-- `_OPERATORS.get`: the fixed operator table of `_apply_filters`.
Scalar comparison operators applied to a list value are modelled as no match. -/
def filterOp : String → Option (Val → FilterVal → Bool)
  | "eq" => some fun c v => match v with | .scalar x => valEq c x | .list _ => false
  | "ne" => some fun c v => match v with | .scalar x => !valEq c x | .list _ => false
  | "gt" => some fun c v => match v with | .scalar x => valLt x c | .list _ => false
  | "lt" => some fun c v => match v with | .scalar x => valLt c x | .list _ => false
  | "gte" => some fun c v => match v with | .scalar x => valLe x c | .list _ => false
  | "lte" => some fun c v => match v with | .scalar x => valLe c x | .list _ => false
  | "in" => some fun c v => decide (c ∈ filterValList v)
  | _ => none

/-- One filter of a `KPIPlan` (`KPIFilter` in app/models.py). -/
structure KPIFilter where
  column : String
  operator : String
  value : FilterVal
  deriving DecidableEq, Repr

/-- The structured computation plan (`KPIPlan` in app/models.py). -/
structure KPIPlan where
  metric : String
  column : Option String := none
  numerator_column : Option String := none
  denominator_column : Option String := none
  filters : List KPIFilter := []
  group_by : List String := []
  time_column : Option String := none
  time_window_days : Option ℤ := none
  deriving DecidableEq, Repr

/-- Python truthiness of an `Optional[str]` field: set and non-empty. -/
def strSet : Option String → Bool
  | some s => !s.isEmpty
  | none => false

/-- A dataframe: column names and rows. -/
structure Table where
  cols : List String
  rows : List (String → Val)

/-- `plan.column and plan.column in df.columns`. -/
def colOk (t : Table) (o : Option String) : Bool :=
  strSet o && decide (o.getD "" ∈ t.cols)

/-- `plan.model_copy(update={"group_by": []})` — the group-cleared plan copy. -/
def clearGroup (p : KPIPlan) : KPIPlan := { p with group_by := [] }

/-- One step of `_apply_filters`: filters on absent columns or with unknown
operators are skipped. -/
def applyFilter (t : Table) (f : KPIFilter) : Table :=
  if f.column ∈ t.cols then
    match filterOp f.operator with
    | some opf => ⟨t.cols, t.rows.filter fun r => opf (r f.column) f.value⟩
    | none => t
  else t

/-- `_apply_filters`: sequential (logical AND) application. -/
def applyFilters (t : Table) (fs : List KPIFilter) : Table :=
  fs.foldl applyFilter t

/-- `df[c] = pd.to_datetime(df[c], errors="coerce")` applied to one row. -/
def convertCol (c : String) (r : String → Val) : String → Val :=
  fun col => if col = c then parseDate (r col) else r col

/-- `df[tc].max()` over converted rows: `none` models NaT (all values unparseable). -/
def maxTime (rows : List (String → Val)) (tc : String) : Option ℤ :=
  match rows.filterMap (fun r => toDatetime (r tc)) with
  | [] => none
  | x :: xs => some (xs.foldl max x)

/-- `df[tc] >= cutoff` for one row: NaT never passes. -/
def timeGe (v : Val) (cutoff : ℤ) : Bool :=
  match toDatetime v with
  | some x => decide (cutoff ≤ x)
  | none => false

/-- `_apply_time_window`: parse the time column, keep rows within
`max - time_window_days` (skipped unless both plan fields are set and the
column exists).  An all-NaT column gives a NaT cutoff, which no row passes. -/
def applyTimeWindow (t : Table) (p : KPIPlan) : Table :=
  match p.time_window_days with
  | none => t
  | some w =>
    if strSet p.time_column then
      let tc := p.time_column.getD ""
      if tc ∈ t.cols then
        let rows := t.rows.map (convertCol tc)
        match maxTime rows tc with
        | none => ⟨t.cols, []⟩
        | some m => ⟨t.cols, rows.filter fun r => timeGe (r tc) (m - w * 86400)⟩
      else t
    else t

/-- The reduction 4.1 performed at the top of `execute_plan` and
`build_breakdown`: time window, then filters. -/
def reduceTable (t : Table) (p : KPIPlan) : Table :=
  applyFilters (applyTimeWindow t p) p.filters

/-- `series.nunique()`: distinct non-null values. -/
def nunique (vs : List Val) : ℕ :=
  ((vs.filter (· ≠ .null)).dedup).length

/-- The values of one column (`df[c]`). -/
def colVals (t : Table) (c : String) : List Val :=
  t.rows.map (· c)

/-- `_mean_date_diff_days`: mean of `(end - start)` in days over rows where
both columns parse as timestamps. -/
def meanDateDiffDays (t : Table) (startCol endCol : String) : Option ℚ :=
  if startCol ∈ t.cols ∧ endCol ∈ t.cols then
    let diffs := t.rows.filterMap fun r =>
      match toDatetime (r startCol), toDatetime (r endCol) with
      | some s, some e => some (((e - s : ℤ) : ℚ) / 86400)
      | _, _ => none
    if diffs.isEmpty then none else some (diffs.sum / diffs.length)
  else none

/-- `_numeric_or_count_distinct`: numeric sum if the column has any numeric
values, else the distinct-value count. -/
def numericOrCountDistinct (vs : List Val) : ℚ :=
  let nums := vs.filterMap toNumeric
  if nums.isEmpty then (nunique vs : ℚ) else nums.sum

/-- Row order of `sort_values(time_column)`: timestamps ascending, NaT last
(modelled with a stable sort; pandas ties are unordered and no verified
property depends on tie order). -/
def timeKeyLe (a b : Option ℤ) : Bool :=
  match a, b with
  | some x, some y => decide (x ≤ y)
  | some _, none => true
  | none, some _ => false
  | none, none => true

/-- The scalar metric dispatch of `execute_plan` (lines 199-266), applied to an
already reduced table. -/
def scalarMetric (t : Table) (p : KPIPlan) : Option ℚ :=
  if p.metric = "count" then some (t.rows.length : ℚ)
  else if p.metric = "count_distinct" then
    if colOk t p.column then some (nunique (colVals t (p.column.getD "")) : ℚ)
    else none
  else if p.metric = "sum" then
    if colOk t p.column then
      some ((colVals t (p.column.getD "")).filterMap toNumeric).sum
    else none
  else if p.metric = "mean" then
    if colOk t p.column then
      let nums := (colVals t (p.column.getD "")).filterMap toNumeric
      if nums.isEmpty then none else some (nums.sum / nums.length)
    else if strSet p.numerator_column && strSet p.denominator_column then
      meanDateDiffDays t (p.denominator_column.getD "") (p.numerator_column.getD "")
    else none
  else if p.metric = "ratio" then
    if strSet p.numerator_column && strSet p.denominator_column then
      if p.numerator_column.getD "" ∈ t.cols ∧ p.denominator_column.getD "" ∈ t.cols then
        let nq := numericOrCountDistinct (colVals t (p.numerator_column.getD ""))
        let dq := numericOrCountDistinct (colVals t (p.denominator_column.getD ""))
        if dq = 0 then none else some (nq / dq)
      else none
    else none
  else if p.metric = "mean_days_between" then
    if strSet p.numerator_column && strSet p.denominator_column then
      meanDateDiffDays t (p.denominator_column.getD "") (p.numerator_column.getD "")
    else none
  else if p.metric = "growth_rate" then
    if colOk t p.column then
      if colOk t p.time_column then
        let tc := p.time_column.getD ""
        let c := p.column.getD ""
        let conv := t.rows.map (convertCol tc)
        let sorted := List.insertionSort
          (fun r1 r2 => timeKeyLe (toDatetime (r1 tc)) (toDatetime (r2 tc)) = true) conv
        match sorted.head?, sorted.getLast? with
        | some r1, some r2 =>
          match toNumeric (r1 c), toNumeric (r2 c) with
          | some f, some l => if f = 0 then none else some ((l - f) / |f|)
          | _, _ => none
        | _, _ => none
      else none
    else none
  else none

/-- `execute_plan` as invoked with a group-cleared plan: reduce, treat an empty
reduced table as absent, then dispatch on the metric (the `group_by` branch of
`execute_plan` is vacuous for such plans; see `executePlan_clearGroup`). -/
def executePlanNG (t : Table) (p : KPIPlan) : Option ℚ :=
  let t1 := reduceTable t p
  if t1.rows.isEmpty then none else scalarMetric t1 p

/-- The grouping key of one row: the tuple of its `group_by` column values. -/
def rowKey (gcols : List String) (r : String → Val) : List Val :=
  gcols.map r

/-- The group keys produced by `df.groupby(gcols, dropna=False)`. -/
def groupKeys (t : Table) (gcols : List String) : List (List Val) :=
  (t.rows.map (rowKey gcols)).dedup

/-- One group's sub-table. -/
def subTable (t : Table) (gcols : List String) (k : List Val) : Table :=
  ⟨t.cols, t.rows.filter fun r => decide (rowKey gcols r = k)⟩

/-- Apply a per-group computation to every group, keyed. -/
def groupedVals (t : Table) (gcols : List String) (f : Table → Option ℚ) :
    List (List Val × Option ℚ) :=
  (groupKeys t gcols).map fun k => (k, f (subTable t gcols k))

/-- `_grouped_metric_values`: group columns not present are dropped; with none
left grouping is impossible (`None`).  Per-group values per metric; `ratio`,
`growth_rate` and `mean_days_between` recurse into the scalar pipeline with a
group-cleared plan copy. -/
def groupedMetricValues (t : Table) (p : KPIPlan) : Option (List (List Val × Option ℚ)) :=
  let gcols := p.group_by.filter (· ∈ t.cols)
  if gcols.isEmpty then none
  else if p.metric = "count" then
    some (groupedVals t gcols fun s => some (s.rows.length : ℚ))
  else if p.metric = "count_distinct" then
    if colOk t p.column then
      some (groupedVals t gcols fun s => some (nunique (colVals s (p.column.getD "")) : ℚ))
    else none
  else if p.metric = "sum" then
    if colOk t p.column then
      some (groupedVals t gcols fun s =>
        some ((colVals s (p.column.getD "")).filterMap toNumeric).sum)
    else none
  else if p.metric = "mean" then
    if colOk t p.column then
      some (groupedVals t gcols fun s =>
        let nums := (colVals s (p.column.getD "")).filterMap toNumeric
        if nums.isEmpty then none else some (nums.sum / nums.length))
    else if strSet p.numerator_column && strSet p.denominator_column then
      some (groupedVals t gcols fun s =>
        meanDateDiffDays s (p.denominator_column.getD "") (p.numerator_column.getD ""))
    else none
  else if p.metric = "ratio" ∨ p.metric = "growth_rate" ∨ p.metric = "mean_days_between" then
    some (groupedVals t gcols fun s => executePlanNG s (clearGroup p))
  else none

/-- `_grouped_aggregate`: `to_numeric(values).dropna()`, absent if nothing
remains, else the max (the representative value). -/
def groupedAggregate (t : Table) (p : KPIPlan) : Option ℚ :=
  match groupedMetricValues t p with
  | none => none
  | some vals =>
    if vals.isEmpty then none
    else
      match vals.filterMap Prod.snd with
      | [] => none
      | q :: qs => some (qs.foldl max q)

/-- `execute_plan`: reduce, absent on empty, grouped aggregate when `group_by`
is set (falling through to the scalar dispatch when it yields nothing). -/
def executePlan (t : Table) (p : KPIPlan) : Option ℚ :=
  let t1 := reduceTable t p
  if t1.rows.isEmpty then none
  else if p.group_by.isEmpty then scalarMetric t1 p
  else
    match groupedAggregate t1 p with
    | some v => some v
    | none => scalarMetric t1 p

/-- `_group_key_to_label`: a single-column key is shown as `str(key)`,
a tuple key is joined with a fixed separator. -/
def groupKeyToLabel : List Val → String
  | [v] => valToString v
  | vs => String.intercalate " / " (vs.map valToString)

/-- Accumulator loop of `Series.idxmax`: the first key attaining the max. -/
def idxmaxGo : List (List Val × ℚ) → (List Val × ℚ) → List Val
  | [], best => best.1
  | kv :: rest, best => idxmaxGo rest (if best.2 < kv.2 then kv else best)

/-- `Series.idxmax` on a keyed series. -/
def idxmax : List (List Val × ℚ) → Option (List Val)
  | [] => none
  | kv :: rest => some (idxmaxGo rest kv)

/-- `to_numeric(values).dropna()` keeping the group keys. -/
def groupedSeries (vals : List (List Val × Option ℚ)) : List (List Val × ℚ) :=
  vals.filterMap fun kv => kv.2.map fun q => (kv.1, q)

/-- `get_group_label`: per-group values on the table as given (no reduction);
the label of the group with the maximum value. -/
def getGroupLabel (t : Table) (p : KPIPlan) : Option String :=
  match groupedMetricValues t p with
  | none => none
  | some vals =>
    if vals.isEmpty then none
    else
      match groupedSeries vals with
      | [] => none
      | kv :: rest => some (groupKeyToLabel (idxmaxGo rest kv))

/-- One entry of a KPI's stored breakdown (`KPIBreakdownEntry` in app/models.py). -/
structure KPIBreakdownEntry where
  label : String
  value : ℚ
  pct : Option ℚ
  deriving DecidableEq, Repr

/-- Sort order of `series.sort_values(ascending=False)`: by value descending. -/
def byValueDesc (a b : List Val × ℚ) : Prop := b.2 ≤ a.2

instance : DecidableRel byValueDesc := fun a b => inferInstanceAs (Decidable (b.2 ≤ a.2))

instance : IsTotal (List Val × ℚ) byValueDesc := ⟨fun a b => le_total b.2 a.2⟩

instance : IsTrans (List Val × ℚ) byValueDesc := ⟨fun _ _ _ h1 h2 => le_trans h2 h1⟩

/-- `build_breakdown`: reduce, group, drop absent values, sort by value
descending and annotate with percentage of total (absent when the total is 0). -/
def buildBreakdown (t : Table) (p : KPIPlan) : Option (List KPIBreakdownEntry) :=
  let t1 := reduceTable t p
  if t1.rows.isEmpty then none
  else
    match groupedMetricValues t1 p with
    | none => none
    | some vals =>
      if vals.isEmpty then none
      else
        let s := groupedSeries vals
        if s.isEmpty then none
        else
          let total := (s.map Prod.snd).sum
          some ((List.insertionSort byValueDesc s).map fun kv =>
            ⟨groupKeyToLabel kv.1, kv.2,
              if total = 0 then none else some (kv.2 / total * 100)⟩)

/-- The per-KPI value/breakdown computation of `compute_kpis` (engine, lines
277-284): the executed value, overridden by the breakdown total for the
additive metrics `sum` and `count` when the breakdown is truthy. -/
def computeValueBreakdown (df : Table) (p : KPIPlan) :
    Option ℚ × Option (List KPIBreakdownEntry) :=
  let value := executePlan df p
  if p.group_by.isEmpty then (value, none)
  else
    match buildBreakdown df p with
    | some entries =>
      if ¬entries.isEmpty ∧ (p.metric = "sum" ∨ p.metric = "count") then
        (some ((entries.map KPIBreakdownEntry.value).sum), some entries)
      else (value, some entries)
    | none => (value, none)

/-- The fields of a stored KPI entity that the verified paths read or write. -/
structure KPIRec where
  kpi_id : String
  project_id : String
  status : String
  plan : KPIPlan
  value : Option ℚ
  value_breakdown : Option (List KPIBreakdownEntry)
  computed_at : Option String
  deriving DecidableEq, Repr

/-- `compute_kpis` (engine): returns the same KPI objects with `value`,
`value_breakdown` and `computed_at` populated. -/
def computeKpis (df : Table) (ks : List KPIRec) (now : String) : List KPIRec :=
  ks.map fun k =>
    let vb := computeValueBreakdown df k.plan
    { k with value := vb.1, value_breakdown := vb.2, computed_at := some now }

/-- The fields of a stored Job entity that the verified paths read or write. -/
structure JobRec where
  job_id : String
  project_id : String
  stage : String
  status : String
  error : Option String
  deriving DecidableEq, Repr

/-- The queue payload (`JobMessage` in app/models.py). -/
structure JobMessage where
  job_id : String
  project_id : String
  stage : String
  dataset_id : Option String
  deriving DecidableEq, Repr

/-- The record store, queue and clock as one state.  `pending` holds enqueued
messages not yet received; `inflight` holds received messages keyed by SQS
receipt handle.  `tableOf` abstracts `_select_datasets` plus
`_load_combined_dataframe` (blob storage is an external collaborator):
`none` models the "No datasets found for project" exception.  `now` and
`freshJobId` model `datetime.now()` and `uuid4()`. -/
structure SysState where
  jobs : List JobRec
  kpis : List KPIRec
  pending : List JobMessage
  inflight : List (String × JobMessage)
  tableOf : String → Option Table
  now : String
  freshJobId : String

/-- `db.get_item("job", id)`. -/
def getJob (st : SysState) (id : String) : Option JobRec :=
  st.jobs.find? fun j => j.job_id = id

/-- `db.get_item("kpi", id)`. -/
def getKpi (st : SysState) (id : String) : Option KPIRec :=
  st.kpis.find? fun k => k.kpi_id = id

/-- `db.update_item("job", id, {"status": ..., "updated_at": ...})`. -/
def setJobStatus (st : SysState) (id status : String) : SysState :=
  { st with jobs := st.jobs.map fun j => if j.job_id = id then { j with status := status } else j }

/-- `db.update_item("job", id, {"status": "failed", "error": ..., "updated_at": ...})`. -/
def setJobFailed (st : SysState) (id e : String) : SysState :=
  { st with jobs := st.jobs.map fun j =>
      if j.job_id = id then { j with status := "failed", error := some e } else j }

/-- `db.update_item("kpi", id, {"status": ...})`. -/
def setKpiStatus (st : SysState) (id status : String) : SysState :=
  { st with kpis := st.kpis.map fun k => if k.kpi_id = id then { k with status := status } else k }

/-- `db.update_item("kpi", id, {"value": ..., "computed_at": ...})` — the
persistence step of `_handle_compute_kpis` (worker, lines 148-151).  Note it
writes only `value` and `computed_at`. -/
def setKpiComputed (st : SysState) (id : String) (v : Option ℚ) (at_ : Option String) : SysState :=
  { st with kpis := st.kpis.map fun k =>
      if k.kpi_id = id then { k with value := v, computed_at := at_ } else k }

/-- `q.delete_job(receipt_handle)`. -/
def ackMessage (st : SysState) (receipt : String) : SysState :=
  { st with inflight := st.inflight.filter fun m => m.1 ≠ receipt }

/-- `_handle_compute_kpis` (worker, lines 115-170).  Returns the state after
the handler's writes, plus the raised error message if any (Python exceptions
leave already-performed writes in place). -/
def handleComputeKpis (job : JobRec) (msg : JobMessage) (st : SysState) :
    SysState × Option String :=
  let kpiItems := st.kpis.filter fun k => k.project_id = msg.project_id
  let approved := kpiItems.filter fun k => k.status = "approved"
  if approved.isEmpty then
    (setJobStatus st job.job_id "complete", none)
  else
    match st.tableOf msg.project_id with
    | none => (st, some "No datasets found for project")
    | some df =>
      let computed := computeKpis df approved st.now
      let st1 := computed.foldl (fun s k => setKpiComputed s k.kpi_id k.value k.computed_at) st
      let st2 := setJobStatus st1 job.job_id "running"
      let rjob : JobRec := ⟨st.freshJobId, msg.project_id, "generate_report", "queued", none⟩
      let st3 := { st2 with jobs := st2.jobs ++ [rjob] }
      let st4 := { st3 with
        pending := st3.pending ++ [⟨st.freshJobId, msg.project_id, "generate_report", none⟩] }
      (setJobStatus st4 job.job_id "complete", none)

/-- A stage handler as the orchestrator sees it: resulting state plus the
raised error, if any. -/
def Handler : Type :=
  JobRec → JobMessage → SysState → SysState × Option String

/-- `process_message` (worker, lines 248-273), parametric in the stage-handler
table `_STAGE_HANDLERS`: missing job record is acknowledged with no entity
write; otherwise mark running, dispatch (an unknown stage raises), record any
handler error as a `failed` status, and acknowledge in a `finally` step. -/
def processMessage (handlers : String → Option Handler) (st : SysState)
    (receipt : String) (msg : JobMessage) : SysState :=
  match getJob st msg.job_id with
  | none => ackMessage st receipt
  | some job =>
    let st1 := setJobStatus st job.job_id "running"
    let result :=
      match handlers msg.stage with
      | none => (st1, some ("Unknown job stage: " ++ msg.stage))
      | some h => h job msg st1
    match result.2 with
    | some e => ackMessage (setJobFailed result.1 job.job_id e) receipt
    | none => ackMessage result.1 receipt

/-- An HTTP error response (`HTTPException`). -/
structure HTTPError where
  status_code : ℕ
  detail : String
  deriving DecidableEq, Repr

/-- The per-entry loop of `approve_kpis` (router, lines 67-73): a missing KPI
or one of another project raises 404 immediately, leaving earlier status
updates in place. -/
def approveLoop (project_id : String) (st : SysState) (updated : List KPIRec) :
    List (String × String) → SysState × List KPIRec × Option HTTPError
  | [] => (st, updated, none)
  | (kid, status) :: rest =>
    match getKpi st kid with
    | none => (st, updated, some ⟨404, "KPI " ++ kid ++ " not found"⟩)
    | some item =>
      if item.project_id ≠ project_id then
        (st, updated, some ⟨404, "KPI " ++ kid ++ " not found"⟩)
      else
        approveLoop project_id (setKpiStatus st kid status)
          (updated ++ [{ item with status := status }]) rest

/-- `approve_kpis` (router, lines 64-90): apply the per-KPI status updates,
then, if any KPI became approved, create and enqueue exactly one new
`compute_kpis` job. -/
def approveKpis (project_id : String) (approvals : List (String × String)) (st : SysState) :
    SysState × Except HTTPError (List KPIRec) :=
  match approveLoop project_id st [] approvals with
  | (st1, _, some e) => (st1, .error e)
  | (st1, updated, none) =>
    if (updated.filter fun k => k.status = "approved").isEmpty then
      (st1, .ok updated)
    else
      let job : JobRec := ⟨st1.freshJobId, project_id, "compute_kpis", "queued", none⟩
      let st2 := { st1 with jobs := st1.jobs ++ [job] }
      let st3 := { st2 with
        pending := st2.pending ++ [⟨st1.freshJobId, project_id, "compute_kpis", none⟩] }
      (st3, .ok updated)

/-- Row literal helper for concrete tables: absent columns read as null. -/
def mkRow (l : List (String × Val)) : String → Val :=
  fun c => ((l.find? fun x => x.1 = c).map Prod.snd).getD .null

/-- The per-row predicate one filter contributes (skipped filters contribute `true`). -/
def filterPred (cols : List String) (f : KPIFilter) (r : String → Val) : Bool :=
  if f.column ∈ cols then
    match filterOp f.operator with
    | some opf => opf (r f.column) f.value
    | none => true
  else true

/-- The per-row predicate of a whole filter list (logical AND). -/
def filtersPred (cols : List String) (fs : List KPIFilter) (r : String → Val) : Bool :=
  fs.all fun f => filterPred cols f r

def c2T : Table :=
  ⟨["n", "d", "g"],
   [mkRow [("n", .num 1), ("d", .num 2), ("g", .str "A")],
    mkRow [("n", .num 3), ("d", .num 4), ("g", .str "B")]]⟩

def c2P : KPIPlan :=
  { metric := "ratio", numerator_column := some "n", denominator_column := some "d",
    group_by := ["g"] }

def c4T : Table :=
  ⟨["category"],
   [mkRow [("category", .str "A")], mkRow [("category", .str "A")],
    mkRow [("category", .str "B")]]⟩

def c4P : KPIPlan := { metric := "count", group_by := ["category"] }

def c4Tw : Table := ⟨["x"], [mkRow [("x", .num 1)], mkRow [("x", .num 2)]]⟩

def c4Pw : KPIPlan := { metric := "count" }

def c5T : Table :=
  ⟨["n", "d", "g"],
   [mkRow [("n", .num 1), ("d", .num 1), ("g", .str "A")],
    mkRow [("n", .num 3), ("d", .num 1), ("g", .str "B")]]⟩

def c5P : KPIPlan :=
  { metric := "ratio", numerator_column := some "n", denominator_column := some "d",
    group_by := ["g"] }

def c5Pw : KPIPlan :=
  { metric := "ratio", numerator_column := some "n", denominator_column := some "d" }

def c5Tz : Table :=
  ⟨["n", "d"],
   [mkRow [("n", .num 1), ("d", .num 0)], mkRow [("n", .num 3), ("d", .num 0)]]⟩

def c3T : Table :=
  ⟨["revenue", "category"],
   [mkRow [("revenue", .num 100), ("category", .str "A")],
    mkRow [("revenue", .num 200), ("category", .str "B")],
    mkRow [("revenue", .num 50), ("category", .str "A")]]⟩

def c3P : KPIPlan := { metric := "mean", column := some "revenue", group_by := ["category"] }

def c6P : KPIPlan := { metric := "sum", column := some "revenue", group_by := ["category"] }

def c6E : List KPIBreakdownEntry :=
  [⟨"B", 200, some (400/7)⟩, ⟨"A", 150, some (300/7)⟩]

def c9T : Table :=
  ⟨["revenue", "category"],
   [mkRow [("revenue", .num 100), ("category", .str "A")],
    mkRow [("revenue", .num 200), ("category", .str "B")],
    mkRow [("revenue", .num 50), ("category", .str "A")]]⟩

def c9P : KPIPlan := { metric := "sum", column := some "revenue", group_by := ["category"] }

def c1Plan : KPIPlan := { metric := "sum", column := some "revenue", group_by := ["category"] }

def c1T : Table :=
  ⟨["revenue", "category"],
   [mkRow [("revenue", .num 100), ("category", .str "A")],
    mkRow [("revenue", .num 200), ("category", .str "B")]]⟩

def c1K : KPIRec := ⟨"k1", "p1", "approved", c1Plan, none, none, none⟩

def c1Job : JobRec := ⟨"j1", "p1", "compute_kpis", "queued", none⟩

def c1St : SysState :=
  ⟨[c1Job], [c1K], [], [], fun pid => if pid = "p1" then some c1T else none, "T0", "j2"⟩

def c1Msg : JobMessage := ⟨"j1", "p1", "compute_kpis", none⟩

def c7Msg : JobMessage := ⟨"j1", "p1", "compute_kpis", none⟩

def c7Job : JobRec := ⟨"j1", "p1", "compute_kpis", "queued", none⟩

def c7St : SysState :=
  ⟨[c7Job], [], [], [("r1", c7Msg)], fun _ => none, "T0", "jf"⟩

def c7Handlers : String → Option Handler :=
  fun _ => some fun _ _ s => (s, some "boom")

def c8K : KPIRec :=
  ⟨"k1", "p1", "proposed", { metric := "count" }, none, none, none⟩

def c8St : SysState := ⟨[], [c8K], [], [], fun _ => none, "T0", "newjob"⟩

def c8St1 : SysState :=
  { setKpiStatus c8St "k1" "approved" with
    jobs := (setKpiStatus c8St "k1" "approved").jobs
      ++ [⟨"newjob", "p1", "compute_kpis", "queued", none⟩],
    pending := (setKpiStatus c8St "k1" "approved").pending
      ++ [⟨"newjob", "p1", "compute_kpis", none⟩] }

def c10K : KPIRec :=
  ⟨"k1", "p1", "proposed", { metric := "count" }, none, none, none⟩

def c10St : SysState := ⟨[], [c10K], [], [], fun _ => none, "T0", "jf"⟩

def c10StP : SysState := setKpiStatus c10St "k1" "approved"

section Lemmas

theorem executePlan_clearGroup (t : Table) (p : KPIPlan) :
    executePlan t (clearGroup p) = executePlanNG t (clearGroup p) := rfl

theorem table_eq (a b : Table) (h1 : a.cols = b.cols) (h2 : a.rows = b.rows) : a = b := by
  cases a; cases b; cases h1; cases h2; rfl

theorem applyFilter_cols (t : Table) (f : KPIFilter) : (applyFilter t f).cols = t.cols := by
  unfold applyFilter
  split
  · split <;> rfl
  · rfl

theorem applyFilter_rows (t : Table) (f : KPIFilter) :
    (applyFilter t f).rows = t.rows.filter (filterPred t.cols f) := by
  unfold applyFilter filterPred
  by_cases hc : f.column ∈ t.cols
  · rcases hop : filterOp f.operator with _ | opf <;> simp [hc, hop]
  · simp [hc]

theorem applyFilters_spec (fs : List KPIFilter) :
    ∀ t : Table, (applyFilters t fs).cols = t.cols ∧
      (applyFilters t fs).rows = t.rows.filter (filtersPred t.cols fs) := by
  induction fs with
  | nil =>
    intro t
    refine ⟨rfl, ?_⟩
    have h : filtersPred t.cols [] = fun _ => true := rfl
    rw [h, List.filter_true]
    rfl
  | cons f fs ih =>
    intro t
    have hstep : applyFilters t (f :: fs) = applyFilters (applyFilter t f) fs := rfl
    have h1 := applyFilter_cols t f
    have h2 := applyFilter_rows t f
    obtain ⟨ihc, ihr⟩ := ih (applyFilter t f)
    refine ⟨by rw [hstep, ihc, h1], ?_⟩
    rw [hstep, ihr, h1, h2, List.filter_filter]
    apply List.filter_congr
    intro r _
    simp [filtersPred, List.all_cons, Bool.and_comm]

theorem applyFilters_cols (t : Table) (fs : List KPIFilter) :
    (applyFilters t fs).cols = t.cols := (applyFilters_spec fs t).1

theorem applyFilters_noop (s : Table) (fs : List KPIFilter)
    (h : ∀ r ∈ s.rows, filtersPred s.cols fs r = true) : applyFilters s fs = s := by
  refine table_eq _ _ (applyFilters_cols s fs) ?_
  rw [(applyFilters_spec fs s).2]
  exact List.filter_eq_self.mpr h

theorem applyTimeWindow_cols (t : Table) (p : KPIPlan) :
    (applyTimeWindow t p).cols = t.cols := by
  unfold applyTimeWindow
  rcases p.time_window_days with _ | w
  · rfl
  · by_cases h1 : strSet p.time_column
    · by_cases h2 : p.time_column.getD "" ∈ t.cols
      · simp only [h1, if_true, h2]
        split <;> rfl
      · simp [h1, h2]
    · simp [h1]

theorem reduceTable_cols (t : Table) (p : KPIPlan) : (reduceTable t p).cols = t.cols := by
  unfold reduceTable
  rw [applyFilters_cols, applyTimeWindow_cols]

theorem foldl_max_le {α : Type} [LinearOrder α] {c : α} :
    ∀ {l : List α} {x : α}, (∀ a ∈ l, a ≤ c) → x ≤ c → l.foldl max x ≤ c := by
  intro l
  induction l with
  | nil => intro x _ hx; exact hx
  | cons a l ih =>
    intro x h hx
    exact ih (fun b hb => h b (List.mem_cons_of_mem a hb))
      (max_le hx (h a (List.mem_cons_self a l)))

theorem le_foldl_max_self {α : Type} [LinearOrder α] :
    ∀ (l : List α) (x : α), x ≤ l.foldl max x := by
  intro l
  induction l with
  | nil => intro x; exact le_refl x
  | cons a l ih =>
    intro x
    exact le_trans (le_max_left x a) (ih (max x a))

theorem le_foldl_max_of_mem {α : Type} [LinearOrder α] :
    ∀ {l : List α} {a : α} (x : α), a ∈ l → a ≤ l.foldl max x := by
  intro l
  induction l with
  | nil => intro a x h; cases h
  | cons b l ih =>
    intro a x h
    rcases List.mem_cons.mp h with h | h
    · subst h
      exact le_trans (le_max_right x a) (le_foldl_max_self l (max x a))
    · exact ih (max x b) h

theorem foldl_max_mem {α : Type} [LinearOrder α] :
    ∀ (l : List α) (x : α), l.foldl max x ∈ x :: l := by
  intro l
  induction l with
  | nil => intro x; exact List.mem_cons_self x []
  | cons a l ih =>
    intro x
    rw [List.foldl_cons]
    rcases List.mem_cons.mp (ih (max x a)) with h | h
    · rw [h]
      rcases max_choice x a with hm | hm <;> rw [hm]
      · exact List.mem_cons_self _ _
      · exact List.mem_cons_of_mem x (List.mem_cons_self a l)
    · exact List.mem_cons_of_mem x (List.mem_cons_of_mem a h)

theorem map_eq_self_of_forall {α : Type} {l : List α} {f : α → α}
    (h : ∀ a ∈ l, f a = a) : l.map f = l := by
  induction l with
  | nil => rfl
  | cons a l ih =>
    simp only [List.map_cons, h a (List.mem_cons_self a l)]
    rw [ih fun b hb => h b (List.mem_cons_of_mem a hb)]

theorem filterMap_eq_map_of_forall {α β : Type} {l : List α} {f : α → Option β} {g : α → β}
    (h : ∀ a ∈ l, f a = some (g a)) : l.filterMap f = l.map g := by
  induction l with
  | nil => rfl
  | cons a l ih =>
    rw [List.filterMap_cons, h a (List.mem_cons_self a l), List.map_cons,
      ih fun b hb => h b (List.mem_cons_of_mem a hb)]

theorem sum_map_mul_const (l : List ℚ) (c : ℚ) : (l.map fun q => q * c).sum = l.sum * c := by
  induction l with
  | nil => simp
  | cons a l ih => simp [ih, add_mul]

theorem toDatetime_eq_some {v : Val} {x : ℤ} (h : toDatetime v = some x) : v = .date x := by
  cases v <;> simp [toDatetime] at h
  rw [h]

theorem toDatetime_parseDate (v : Val) : toDatetime (parseDate v) = toDatetime v := by
  cases v <;> rfl

theorem convertCol_of_date {tc : String} {r : String → Val} {x : ℤ}
    (h : toDatetime (r tc) = some x) : convertCol tc r = r := by
  funext c
  unfold convertCol
  by_cases hc : c = tc
  · subst hc
    rw [toDatetime_eq_some h]
    simp [parseDate, toDatetime]
  · simp [hc]

theorem maxTime_eq_none {rows : List (String → Val)} {tc : String}
    (h : maxTime rows tc = none) : rows.filterMap (fun r => toDatetime (r tc)) = [] := by
  unfold maxTime at h
  split at h
  · assumption
  · cases h

theorem maxTime_ge {rows : List (String → Val)} {tc : String} {gm : ℤ}
    (h : maxTime rows tc = some gm) :
    ∀ x ∈ rows.filterMap (fun r => toDatetime (r tc)), x ≤ gm := by
  unfold maxTime at h
  split at h
  · cases h
  · next y ys heq =>
    intro x hx
    rw [heq] at hx
    cases h
    rcases List.mem_cons.mp hx with hx | hx
    · subst hx; exact le_foldl_max_self ys x
    · exact le_foldl_max_of_mem y hx

theorem maxTime_le {rows : List (String → Val)} {tc : String} {m c : ℤ}
    (h : maxTime rows tc = some m)
    (hb : ∀ x ∈ rows.filterMap (fun r => toDatetime (r tc)), x ≤ c) : m ≤ c := by
  unfold maxTime at h
  split at h
  · cases h
  · next y ys heq =>
    cases h
    refine foldl_max_le (fun a ha => hb a ?_) (hb y ?_)
    · rw [heq]; exact List.mem_cons_of_mem y ha
    · rw [heq]; exact List.mem_cons_self y ys

theorem applyTimeWindow_subset_noop (t : Table) (p : KPIPlan) (s : Table)
    (hc : s.cols = t.cols) (hsub : ∀ r ∈ s.rows, r ∈ (applyTimeWindow t p).rows) :
    applyTimeWindow s p = s := by
  rcases hw : p.time_window_days with _ | w
  · unfold applyTimeWindow
    rw [hw]
  · by_cases hts : strSet p.time_column = true
    · by_cases hmem : p.time_column.getD "" ∈ t.cols
      · have hmems : p.time_column.getD "" ∈ s.cols := by rw [hc]; exact hmem
        have htw : (applyTimeWindow t p).rows =
            (match maxTime (t.rows.map (convertCol (p.time_column.getD ""))) (p.time_column.getD "") with
             | none => (⟨t.cols, []⟩ : Table)
             | some m => ⟨t.cols, (t.rows.map (convertCol (p.time_column.getD ""))).filter
                 fun r => timeGe (r (p.time_column.getD "")) (m - w * 86400)⟩).rows := by
          unfold applyTimeWindow
          rw [hw]
          simp only [hts, if_true, hmem, if_true]
        rcases hgm : maxTime (t.rows.map (convertCol (p.time_column.getD ""))) (p.time_column.getD "") with _ | gm
        · rw [hgm] at htw
          have hsnil : s.rows = [] := by
            cases hs : s.rows with
            | nil => rfl
            | cons r rs =>
              have hmemr := hsub r (by rw [hs]; exact List.mem_cons_self r rs)
              rw [htw] at hmemr
              cases hmemr
          unfold applyTimeWindow
          rw [hw]
          simp only [hts, if_true, hmems, if_true, hsnil]
          have hmt : maxTime (List.map (convertCol (p.time_column.getD "")) []) (p.time_column.getD "") = none := rfl
          rw [hmt]
          exact table_eq _ _ rfl hsnil.symm
        · rw [hgm] at htw
          have hrow : ∀ r ∈ s.rows, ∃ x, toDatetime (r (p.time_column.getD "")) = some x ∧
              gm - w * 86400 ≤ x ∧ r ∈ t.rows.map (convertCol (p.time_column.getD "")) := by
            intro r hr
            have hmemr := hsub r hr
            rw [htw] at hmemr
            obtain ⟨hmap, hpass⟩ := List.mem_filter.mp hmemr
            unfold timeGe at hpass
            rcases hx : toDatetime (r (p.time_column.getD "")) with _ | x
            · rw [hx] at hpass; cases hpass
            · rw [hx] at hpass
              exact ⟨x, rfl, of_decide_eq_true hpass, hmap⟩
          have hconv : ∀ r ∈ s.rows, convertCol (p.time_column.getD "") r = r := by
            intro r hr
            obtain ⟨x, hx, _, _⟩ := hrow r hr
            exact convertCol_of_date hx
          have hmap : s.rows.map (convertCol (p.time_column.getD "")) = s.rows :=
            map_eq_self_of_forall hconv
          unfold applyTimeWindow
          rw [hw]
          simp only [hts, if_true, hmems, if_true, hmap]
          rcases hlm : maxTime s.rows (p.time_column.getD "") with _ | m
          · cases hs : s.rows with
            | nil => exact table_eq _ _ rfl hs.symm
            | cons r rs =>
              exfalso
              have hmemr : r ∈ s.rows := by rw [hs]; exact List.mem_cons_self r rs
              obtain ⟨x, hx, _, _⟩ := hrow r hmemr
              have : x ∈ s.rows.filterMap (fun r => toDatetime (r (p.time_column.getD ""))) :=
                List.mem_filterMap.mpr ⟨r, hmemr, hx⟩
              rw [maxTime_eq_none hlm] at this
              cases this
          · have hmle : m ≤ gm := by
              refine maxTime_le hlm ?_
              intro x hx
              obtain ⟨r, hr, hxr⟩ := List.mem_filterMap.mp hx
              obtain ⟨_, _, _, hrmap⟩ := hrow r hr
              exact maxTime_ge hgm x (List.mem_filterMap.mpr ⟨r, hrmap, hxr⟩)
            have hkeep : ∀ r ∈ s.rows, timeGe (r (p.time_column.getD "")) (m - w * 86400) = true := by
              intro r hr
              obtain ⟨x, hx, hge, _⟩ := hrow r hr
              unfold timeGe
              rw [hx]
              exact decide_eq_true (le_trans (by omega) hge)
            exact table_eq _ _ rfl (List.filter_eq_self.mpr hkeep)
      · have hmems : p.time_column.getD "" ∉ s.cols := by rw [hc]; exact hmem
        unfold applyTimeWindow
        rw [hw]
        simp [hts, hmems]
    · unfold applyTimeWindow
      rw [hw]
      simp [hts]

theorem reduceTable_subset_noop (t : Table) (p : KPIPlan) (s : Table)
    (hc : s.cols = t.cols) (hsub : ∀ r ∈ s.rows, r ∈ (reduceTable t p).rows) :
    reduceTable s p = s := by
  have hsub1 : ∀ r ∈ s.rows, r ∈ (applyTimeWindow t p).rows := by
    intro r hr
    have h := hsub r hr
    unfold reduceTable at h
    rw [(applyFilters_spec p.filters (applyTimeWindow t p)).2] at h
    exact (List.mem_filter.mp h).1
  have hw : applyTimeWindow s p = s := applyTimeWindow_subset_noop t p s hc hsub1
  unfold reduceTable
  rw [hw]
  apply applyFilters_noop
  intro r hr
  have h := hsub r hr
  unfold reduceTable at h
  rw [(applyFilters_spec p.filters (applyTimeWindow t p)).2] at h
  have hpred := (List.mem_filter.mp h).2
  rw [show s.cols = (applyTimeWindow t p).cols from hc.trans (applyTimeWindow_cols t p).symm]
  exact hpred

theorem groupedMetricValues_gcols {t : Table} {p : KPIPlan} {vals : List (List Val × Option ℚ)}
    (h : groupedMetricValues t p = some vals) :
    (p.group_by.filter (· ∈ t.cols)).isEmpty = false := by
  cases hg : (p.group_by.filter (· ∈ t.cols)).isEmpty
  · rfl
  · exfalso
    simp [groupedMetricValues, hg] at h

theorem groupedMetricValues_recursive (t : Table) (p : KPIPlan)
    (hm : p.metric = "ratio" ∨ p.metric = "growth_rate" ∨ p.metric = "mean_days_between")
    (hg : (p.group_by.filter (· ∈ t.cols)).isEmpty = false) :
    groupedMetricValues t p
      = some (groupedVals t (p.group_by.filter (· ∈ t.cols))
          fun s => executePlanNG s (clearGroup p)) := by
  rcases hm with h | h | h <;> simp [groupedMetricValues, h, hg]

theorem groupedMetricValues_shape {t : Table} {p : KPIPlan} {vals : List (List Val × Option ℚ)}
    (h : groupedMetricValues t p = some vals) :
    ∃ f, vals = groupedVals t (p.group_by.filter (· ∈ t.cols)) f := by
  simp only [groupedMetricValues] at h
  split_ifs at h <;> exact ⟨_, (Option.some.inj h).symm⟩

theorem mem_groupedVals {t : Table} {gcols : List String} {f : Table → Option ℚ}
    {kv : List Val × Option ℚ} (h : kv ∈ groupedVals t gcols f) :
    kv.1 ∈ groupKeys t gcols ∧ kv.2 = f (subTable t gcols kv.1) := by
  obtain ⟨k, hk, heq⟩ := List.mem_map.mp h
  rw [← heq]
  exact ⟨hk, rfl⟩

theorem subTable_rows_ne_nil {t : Table} {gcols : List String} {k : List Val}
    (h : k ∈ groupKeys t gcols) : (subTable t gcols k).rows ≠ [] := by
  obtain ⟨r, hr, hrk⟩ := List.mem_map.mp (List.mem_dedup.mp h)
  intro hnil
  have hmem : r ∈ (subTable t gcols k).rows :=
    List.mem_filter.mpr ⟨hr, decide_eq_true hrk⟩
  rw [hnil] at hmem
  cases hmem

theorem reduce_subTable_noop (t : Table) (p : KPIPlan) (gcols : List String) (k : List Val) :
    reduceTable (subTable (reduceTable t p) gcols k) (clearGroup p)
      = subTable (reduceTable t p) gcols k := by
  have hr : reduceTable (subTable (reduceTable t p) gcols k) (clearGroup p)
      = reduceTable (subTable (reduceTable t p) gcols k) p := rfl
  rw [hr]
  apply reduceTable_subset_noop
  · exact reduceTable_cols t p
  · intro r hr2
    exact (List.mem_filter.mp hr2).1

end Lemmas

/-- C2: for a grouped plan whose metric is `ratio`, `growth_rate` or
`mean_days_between`, each per-group value in `_grouped_metric_values` is the
full scalar pipeline (`execute_plan`) invoked on the group's sub-table of the
reduced table with a group-cleared plan copy; re-reducing that sub-table is the
identity (the filters and time window have no further effect after the single
pre-grouping reduction), so each group's value equals evaluating the metric
ungrouped (the bare scalar dispatch) on the filtered subset restricted to that
group alone. -/
theorem c2_grouped_recursive_matches_ungrouped (t : Table) (p : KPIPlan)
    (hm : p.metric = "ratio" ∨ p.metric = "growth_rate" ∨ p.metric = "mean_days_between")
    (vals : List (List Val × Option ℚ))
    (h : groupedMetricValues (reduceTable t p) p = some vals) :
    ∀ kv ∈ vals, ∀ gcols, gcols = p.group_by.filter (· ∈ (reduceTable t p).cols) →
      kv.2 = executePlan (subTable (reduceTable t p) gcols kv.1) (clearGroup p) ∧
      reduceTable (subTable (reduceTable t p) gcols kv.1) (clearGroup p)
        = subTable (reduceTable t p) gcols kv.1 ∧
      kv.2 = scalarMetric (subTable (reduceTable t p) gcols kv.1) (clearGroup p) := by
  intro kv hkv gcols hgc
  subst hgc
  have hg := groupedMetricValues_gcols h
  rw [groupedMetricValues_recursive (reduceTable t p) p hm hg] at h
  injection h with h
  subst h
  obtain ⟨hk, hv⟩ := mem_groupedVals hkv
  have hnoop := reduce_subTable_noop t p (p.group_by.filter (· ∈ (reduceTable t p).cols)) kv.1
  refine ⟨by rw [executePlan_clearGroup]; exact hv, hnoop, ?_⟩
  rw [hv]
  unfold executePlanNG
  rw [hnoop]
  simp [List.isEmpty_iff, subTable_rows_ne_nil hk]

theorem c2_witness :
    (([Val.str "A"], some ((1 : ℚ)/2)) : List Val × Option ℚ).2
        = executePlan (subTable (reduceTable c2T c2P) ["g"] [Val.str "A"]) (clearGroup c2P) ∧
    reduceTable (subTable (reduceTable c2T c2P) ["g"] [Val.str "A"]) (clearGroup c2P)
        = subTable (reduceTable c2T c2P) ["g"] [Val.str "A"] ∧
    (([Val.str "A"], some ((1 : ℚ)/2)) : List Val × Option ℚ).2
        = scalarMetric (subTable (reduceTable c2T c2P) ["g"] [Val.str "A"]) (clearGroup c2P) :=
  c2_grouped_recursive_matches_ungrouped c2T c2P (Or.inl rfl)
    [([Val.str "A"], some ((1 : ℚ)/2)), ([Val.str "B"], some ((3 : ℚ)/4))]
    (by with_unfolding_all decide)
    ([Val.str "A"], some ((1 : ℚ)/2)) (by with_unfolding_all decide)
    ["g"] (by with_unfolding_all decide)

/-- C4 counterexample: a grouped `count` plan on a non-empty (un-windowed,
unfiltered) 3-row table: `execute_plan` returns the grouped representative
value 2 (the largest group size), not the row count 3 of the reduced table. -/
theorem c4_count_counterexample :
    (reduceTable c4T c4P).rows.isEmpty = false ∧
    (reduceTable c4T c4P).rows.length = 3 ∧
    executePlan c4T c4P = some 2 ∧
    ¬executePlan c4T c4P = some (((reduceTable c4T c4P).rows.length : ℕ) : ℚ) := by
  with_unfolding_all decide

/-- C4 (amended): for every plan with metric `count` and empty `group_by`,
`execute_plan` on a table whose reduced form is non-empty returns exactly the
reduced row count, and on a table whose reduced form is empty returns absent
(`none`), never zero. -/
theorem c4_count_ungrouped (t : Table) (p : KPIPlan)
    (hm : p.metric = "count") (hg : p.group_by = []) :
    ((reduceTable t p).rows.isEmpty = false →
      executePlan t p = some (((reduceTable t p).rows.length : ℕ) : ℚ)) ∧
    ((reduceTable t p).rows.isEmpty = true → executePlan t p = none) := by
  constructor <;> intro h
  · simp [executePlan, h, hg, scalarMetric, hm]
  · simp [executePlan, h]

theorem c4_witness :
    executePlan c4Tw c4Pw = some (((reduceTable c4Tw c4Pw).rows.length : ℕ) : ℚ) ∧
    executePlan (⟨["x"], []⟩ : Table) c4Pw = none :=
  ⟨(c4_count_ungrouped c4Tw c4Pw rfl rfl).1 (by with_unfolding_all decide),
   (c4_count_ungrouped ⟨["x"], []⟩ c4Pw rfl rfl).2 (by with_unfolding_all decide)⟩

/-- C5 counterexample: a grouped `ratio` plan with both columns set and present
on a non-empty table with nonzero denominator aggregate: the whole-table ratio
is `aggregate(n)/aggregate(d) = 4/2 = 2`, but `execute_plan` returns 3 (the max
of the per-group ratios 1 and 3). -/
theorem c5_ratio_grouped_counterexample :
    (reduceTable c5T c5P).rows.isEmpty = false ∧
    strSet c5P.numerator_column = true ∧
    strSet c5P.denominator_column = true ∧
    "n" ∈ c5T.cols ∧ "d" ∈ c5T.cols ∧
    numericOrCountDistinct (colVals (reduceTable c5T c5P) "n")
        / numericOrCountDistinct (colVals (reduceTable c5T c5P) "d") = 2 ∧
    numericOrCountDistinct (colVals (reduceTable c5T c5P) "d") ≠ 0 ∧
    executePlan c5T c5P = some 3 := by
  with_unfolding_all decide

/-- C5 (amended): for every plan with metric `ratio`, empty `group_by`, both
ratio columns set, and non-empty reduced table: if both columns are present the
result is `aggregate(numerator)/aggregate(denominator)` (with `aggregate` as in
`_numeric_or_count_distinct`), absent when the denominator aggregate is 0
regardless of the numerator; if either column is missing the result is absent. -/
theorem c5_ratio_ungrouped (t : Table) (p : KPIPlan)
    (hm : p.metric = "ratio") (hg : p.group_by = [])
    (hne : (reduceTable t p).rows.isEmpty = false)
    (hnum : strSet p.numerator_column = true) (hden : strSet p.denominator_column = true) :
    (p.numerator_column.getD "" ∈ t.cols → p.denominator_column.getD "" ∈ t.cols →
      (numericOrCountDistinct (colVals (reduceTable t p) (p.denominator_column.getD "")) = 0 →
        executePlan t p = none) ∧
      (numericOrCountDistinct (colVals (reduceTable t p) (p.denominator_column.getD "")) ≠ 0 →
        executePlan t p = some
          (numericOrCountDistinct (colVals (reduceTable t p) (p.numerator_column.getD ""))
            / numericOrCountDistinct (colVals (reduceTable t p) (p.denominator_column.getD ""))))) ∧
    (¬(p.numerator_column.getD "" ∈ t.cols ∧ p.denominator_column.getD "" ∈ t.cols) →
      executePlan t p = none) := by
  have hcols := reduceTable_cols t p
  have hep : executePlan t p = scalarMetric (reduceTable t p) p := by
    simp [executePlan, hne, hg]
  constructor
  · intro hn hd
    have hn1 : p.numerator_column.getD "" ∈ (reduceTable t p).cols := by rw [hcols]; exact hn
    have hd1 : p.denominator_column.getD "" ∈ (reduceTable t p).cols := by rw [hcols]; exact hd
    constructor <;> intro hz <;> rw [hep] <;>
      simp [scalarMetric, hm, hnum, hden, hn1, hd1, hz]
  · intro hnd
    have hnd1 : ¬(p.numerator_column.getD "" ∈ (reduceTable t p).cols ∧
        p.denominator_column.getD "" ∈ (reduceTable t p).cols) := by
      rw [hcols]; exact hnd
    rw [hep]
    simp [scalarMetric, hm, hnum, hden, hnd1]

theorem c5_witness :
    executePlan c5T c5Pw = some
      (numericOrCountDistinct (colVals (reduceTable c5T c5Pw) "n")
        / numericOrCountDistinct (colVals (reduceTable c5T c5Pw) "d")) ∧
    executePlan c5Tz c5Pw = none :=
  ⟨((c5_ratio_ungrouped c5T c5Pw rfl rfl (by with_unfolding_all decide) rfl rfl).1
      (by with_unfolding_all decide) (by with_unfolding_all decide)).2
      (by with_unfolding_all decide),
   ((c5_ratio_ungrouped c5Tz c5Pw rfl rfl (by with_unfolding_all decide) rfl rfl).1
      (by with_unfolding_all decide) (by with_unfolding_all decide)).1
      (by with_unfolding_all decide)⟩

theorem map_snd_groupedSeries (vals : List (List Val × Option ℚ)) :
    (groupedSeries vals).map Prod.snd = vals.filterMap Prod.snd := by
  unfold groupedSeries
  induction vals with
  | nil => rfl
  | cons kv rest ih =>
    rcases h : kv.2 with _ | q <;> simp [List.filterMap_cons, h, ih]

theorem mem_groupedSeries {vals : List (List Val × Option ℚ)} {k : List Val} {v : ℚ} :
    (k, v) ∈ groupedSeries vals ↔ (k, some v) ∈ vals := by
  unfold groupedSeries
  rw [List.mem_filterMap]
  constructor
  · rintro ⟨kv, hkv, heq⟩
    rcases h2 : kv.2 with _ | q
    · rw [h2] at heq; cases heq
    · rw [h2] at heq
      obtain ⟨h3, h4⟩ := Prod.mk.injEq .. ▸ (Option.some.inj heq)
      obtain ⟨k1, v1⟩ := kv
      simp only at h2 h3 h4
      rw [h3, h2, h4] at hkv
      exact hkv
  · intro hkv
    exact ⟨(k, some v), hkv, rfl⟩

theorem groupedVals_eq_nil {t : Table} {gcols : List String} {f : Table → Option ℚ} :
    groupedVals t gcols f = [] ↔ t.rows = [] := by
  unfold groupedVals groupKeys
  simp

theorem groupedAggregate_some {t : Table} {p : KPIPlan} {v : ℚ}
    (h : groupedAggregate t p = some v) :
    ∃ vals q qs, groupedMetricValues t p = some vals ∧ vals.isEmpty = false ∧
      vals.filterMap Prod.snd = q :: qs ∧ v = qs.foldl max q := by
  rcases hmv : groupedMetricValues t p with _ | vals
  · simp [groupedAggregate, hmv] at h
  · cases hve : vals.isEmpty with
    | true => simp [groupedAggregate, hmv, hve] at h
    | false =>
      rcases hser : vals.filterMap Prod.snd with _ | ⟨q, qs⟩
      · simp [groupedAggregate, hmv, hve, hser] at h
      · have heval : groupedAggregate t p = some (qs.foldl max q) := by
          simp [groupedAggregate, hmv, hve, hser]
        rw [heval] at h
        exact ⟨vals, q, qs, rfl, hve, hser, (Option.some.inj h).symm⟩

/-- C3: for a grouped KPI whose grouped evaluation succeeds, `execute_plan`
returns the representative value (the max over all per-group values), and the
headline value stored by `compute_kpis` is that max by default, except for the
additive metrics `sum` and `count`, where it is the sum of the breakdown
entries' values. -/
theorem c3_grouped_headline_policy (t : Table) (p : KPIPlan) (v : ℚ)
    (hg : p.group_by.isEmpty = false)
    (hagg : groupedAggregate (reduceTable t p) p = some v) :
    executePlan t p = some v ∧
    (∃ vals, groupedMetricValues (reduceTable t p) p = some vals ∧
      v ∈ vals.filterMap Prod.snd ∧ ∀ x ∈ vals.filterMap Prod.snd, x ≤ v) ∧
    ((p.metric = "sum" ∨ p.metric = "count") →
      ∃ entries, buildBreakdown t p = some entries ∧ entries ≠ [] ∧
        (computeValueBreakdown t p).1 = some (entries.map KPIBreakdownEntry.value).sum) ∧
    (¬(p.metric = "sum" ∨ p.metric = "count") → (computeValueBreakdown t p).1 = some v) := by
  obtain ⟨vals, q, qs, hmv, hve, hser, h⟩ := groupedAggregate_some hagg
  rw [eq_comm] at h
  obtain ⟨f, hshape⟩ := groupedMetricValues_shape hmv
  have hrows : (reduceTable t p).rows ≠ [] := by
    intro hnil
    have : vals = [] := by rw [hshape]; exact groupedVals_eq_nil.mpr hnil
    rw [this] at hve
    cases hve
  have hne : (reduceTable t p).rows.isEmpty = false := by
    cases h2 : (reduceTable t p).rows.isEmpty
    · rfl
    · exact absurd (List.isEmpty_iff.mp h2) hrows
  have hexec : executePlan t p = some v := by
    simp [executePlan, hne, hg, hagg]
  have hvne : vals ≠ [] := by
    intro hnil; rw [hnil] at hve; cases hve
  refine ⟨hexec, ⟨vals, hmv, ?_, ?_⟩, ?_, ?_⟩
  · rw [hser, ← h]
    exact foldl_max_mem qs q
  · intro x hx
    rw [hser] at hx
    rw [← h]
    rcases List.mem_cons.mp hx with hx | hx
    · rw [hx]; exact le_foldl_max_self qs q
    · exact le_foldl_max_of_mem q hx
  · intro hmetric
    have hs_ne : groupedSeries vals ≠ [] := by
      intro hnil
      have hcontr := map_snd_groupedSeries vals
      rw [hnil, hser] at hcontr
      cases hcontr
    have hsie : (groupedSeries vals).isEmpty = false := by
      cases h2 : (groupedSeries vals).isEmpty
      · rfl
      · exact absurd (List.isEmpty_iff.mp h2) hs_ne
    have hbd : buildBreakdown t p = some
        ((List.insertionSort byValueDesc (groupedSeries vals)).map fun kv =>
          ⟨groupKeyToLabel kv.1, kv.2,
            if ((groupedSeries vals).map Prod.snd).sum = 0 then none
            else some (kv.2 / ((groupedSeries vals).map Prod.snd).sum * 100)⟩) := by
      simp [buildBreakdown, hne, hmv, hve, hsie]
    have hent_ne : ((List.insertionSort byValueDesc (groupedSeries vals)).map fun kv =>
        (⟨groupKeyToLabel kv.1, kv.2,
          if ((groupedSeries vals).map Prod.snd).sum = 0 then none
          else some (kv.2 / ((groupedSeries vals).map Prod.snd).sum * 100)⟩ :
            KPIBreakdownEntry)) ≠ [] := by
      intro hnil
      rw [List.map_eq_nil_iff] at hnil
      have hperm := List.perm_insertionSort byValueDesc (groupedSeries vals)
      rw [hnil] at hperm
      exact hs_ne hperm.nil_eq.symm
    have hent_ie : ((List.insertionSort byValueDesc (groupedSeries vals)).map fun kv =>
        (⟨groupKeyToLabel kv.1, kv.2,
          if ((groupedSeries vals).map Prod.snd).sum = 0 then none
          else some (kv.2 / ((groupedSeries vals).map Prod.snd).sum * 100)⟩ :
            KPIBreakdownEntry)).isEmpty = false := by
      cases h2 : List.isEmpty _
      · rfl
      · exact absurd (List.isEmpty_iff.mp h2) hent_ne
    refine ⟨_, hbd, hent_ne, ?_⟩
    simp [computeValueBreakdown, hg, hbd, hent_ie, hmetric]
  · intro hmetric
    rw [← hexec]
    cases hbd : buildBreakdown t p with
    | none => simp [computeValueBreakdown, hg, hbd]
    | some entries => simp [computeValueBreakdown, hg, hbd, hmetric]

theorem c3_witness :
    executePlan c3T c3P = some 200 ∧ (computeValueBreakdown c3T c3P).1 = some 200 :=
  have h := c3_grouped_headline_policy c3T c3P 200 rfl (by with_unfolding_all decide)
  ⟨h.1, h.2.2.2 (by with_unfolding_all decide)⟩

theorem buildBreakdown_some {t : Table} {p : KPIPlan} {entries : List KPIBreakdownEntry}
    (h : buildBreakdown t p = some entries) :
    ∃ vals, groupedMetricValues (reduceTable t p) p = some vals ∧
      groupedSeries vals ≠ [] ∧
      entries = (List.insertionSort byValueDesc (groupedSeries vals)).map fun kv =>
        ⟨groupKeyToLabel kv.1, kv.2,
          if ((groupedSeries vals).map Prod.snd).sum = 0 then none
          else some (kv.2 / ((groupedSeries vals).map Prod.snd).sum * 100)⟩ := by
  cases hne : (reduceTable t p).rows.isEmpty with
  | true => simp [buildBreakdown, hne] at h
  | false =>
    rcases hmv : groupedMetricValues (reduceTable t p) p with _ | vals
    · simp [buildBreakdown, hne, hmv] at h
    · cases hve : vals.isEmpty with
      | true => simp [buildBreakdown, hne, hmv, hve] at h
      | false =>
        cases hsie : (groupedSeries vals).isEmpty with
        | true => simp [buildBreakdown, hne, hmv, hve, hsie] at h
        | false =>
          have hsne : groupedSeries vals ≠ [] := by
            intro hnil
            rw [hnil] at hsie
            cases hsie
          have heval : buildBreakdown t p = some
              ((List.insertionSort byValueDesc (groupedSeries vals)).map fun kv =>
                ⟨groupKeyToLabel kv.1, kv.2,
                  if ((groupedSeries vals).map Prod.snd).sum = 0 then none
                  else some (kv.2 / ((groupedSeries vals).map Prod.snd).sum * 100)⟩) := by
            simp [buildBreakdown, hne, hmv, hve, hsie]
          rw [heval] at h
          exact ⟨vals, rfl, hsne, (Option.some.inj h).symm⟩

theorem pct_sum_aux (L : List (List Val × ℚ)) (T : ℚ) (hT : T ≠ 0)
    (hsum : (L.map Prod.snd).sum = T) :
    ((L.map fun kv => (⟨groupKeyToLabel kv.1, kv.2,
        if T = 0 then none else some (kv.2 / T * 100)⟩ : KPIBreakdownEntry)).filterMap
      KPIBreakdownEntry.pct).sum = 100 := by
  have hall2 : ∀ e ∈ L.map (fun kv : List Val × ℚ =>
      (⟨groupKeyToLabel kv.1, kv.2, if T = 0 then none else some (kv.2 / T * 100)⟩ :
        KPIBreakdownEntry)),
      KPIBreakdownEntry.pct e = some (KPIBreakdownEntry.value e * (100 / T)) := by
    intro e he
    obtain ⟨kv, _, hf⟩ := List.mem_map.mp he
    rw [← hf]
    simp only [hT, if_false]
    exact congrArg some (by ring)
  rw [filterMap_eq_map_of_forall hall2]
  have hmm : (L.map fun kv : List Val × ℚ =>
        (⟨groupKeyToLabel kv.1, kv.2, if T = 0 then none else some (kv.2 / T * 100)⟩ :
          KPIBreakdownEntry)).map (fun e => KPIBreakdownEntry.value e * (100 / T))
      = (L.map Prod.snd).map (fun q => q * (100 / T)) := by
    rw [List.map_map, List.map_map]
    rfl
  rw [hmm, sum_map_mul_const, hsum, mul_comm, div_mul_cancel₀]
  exact hT

/-- C6: whenever `build_breakdown` returns a list, the entries are sorted by
value descending, each entry's `pct` is `value / total * 100` with `total` the
sum of all group values, `pct` is absent exactly when the total is 0, the sum
of the entries' values equals the total, and when the total is nonzero the
`pct` entries sum to exactly 100. -/
theorem c6_breakdown_properties (t : Table) (p : KPIPlan) (entries : List KPIBreakdownEntry)
    (h : buildBreakdown t p = some entries) :
    ∃ vals, groupedMetricValues (reduceTable t p) p = some vals ∧
      List.Sorted (fun a b : KPIBreakdownEntry => b.value ≤ a.value) entries ∧
      (entries.map KPIBreakdownEntry.value).sum = ((groupedSeries vals).map Prod.snd).sum ∧
      (∀ e ∈ entries, e.pct =
        if ((groupedSeries vals).map Prod.snd).sum = 0 then none
        else some (e.value / ((groupedSeries vals).map Prod.snd).sum * 100)) ∧
      (∀ e ∈ entries, (e.pct = none ↔ ((groupedSeries vals).map Prod.snd).sum = 0)) ∧
      (((groupedSeries vals).map Prod.snd).sum ≠ 0 →
        (entries.filterMap KPIBreakdownEntry.pct).sum = 100) := by
  obtain ⟨vals, hmv, hsne, hent⟩ := buildBreakdown_some h
  subst hent
  refine ⟨vals, hmv, ?_, ?_, ?_, ?_, ?_⟩
  · exact List.Pairwise.map _ (fun a b hab => hab)
      (List.sorted_insertionSort byValueDesc (groupedSeries vals))
  · rw [List.map_map]
    exact ((List.perm_insertionSort byValueDesc (groupedSeries vals)).map Prod.snd).sum_eq
  · intro e he
    obtain ⟨kv, _, hf⟩ := List.mem_map.mp he
    rw [← hf]
  · intro e he
    obtain ⟨kv, _, hf⟩ := List.mem_map.mp he
    rw [← hf]
    by_cases htz : ((groupedSeries vals).map Prod.snd).sum = 0 <;> simp [htz]
  · intro htz
    exact pct_sum_aux (List.insertionSort byValueDesc (groupedSeries vals)) _ htz
      ((List.perm_insertionSort byValueDesc (groupedSeries vals)).map Prod.snd).sum_eq

theorem c6_witness :
    ∃ vals, groupedMetricValues (reduceTable c3T c6P) c6P = some vals ∧
      List.Sorted (fun a b : KPIBreakdownEntry => b.value ≤ a.value) c6E ∧
      (c6E.map KPIBreakdownEntry.value).sum = ((groupedSeries vals).map Prod.snd).sum ∧
      (∀ e ∈ c6E, e.pct =
        if ((groupedSeries vals).map Prod.snd).sum = 0 then none
        else some (e.value / ((groupedSeries vals).map Prod.snd).sum * 100)) ∧
      (∀ e ∈ c6E, (e.pct = none ↔ ((groupedSeries vals).map Prod.snd).sum = 0)) ∧
      (((groupedSeries vals).map Prod.snd).sum ≠ 0 →
        (c6E.filterMap KPIBreakdownEntry.pct).sum = 100) :=
  c6_breakdown_properties c3T c6P c6E (by with_unfolding_all decide)

theorem idxmaxGo_spec : ∀ (l : List (List Val × ℚ)) (best : List Val × ℚ),
    ∃ kv, (kv = best ∨ kv ∈ l) ∧ idxmaxGo l best = kv.1 ∧ best.2 ≤ kv.2 ∧
      ∀ x ∈ l, x.2 ≤ kv.2 := by
  intro l
  induction l with
  | nil =>
    intro best
    exact ⟨best, Or.inl rfl, rfl, le_refl _, fun x hx => absurd hx (List.not_mem_nil x)⟩
  | cons a l ih =>
    intro best
    obtain ⟨kv, hmem, heq, hle, hbound⟩ := ih (if best.2 < a.2 then a else best)
    refine ⟨kv, ?_, heq, ?_, ?_⟩
    · rcases hmem with hm | hm
      · by_cases hc : best.2 < a.2
        · rw [if_pos hc] at hm
          exact Or.inr (hm ▸ List.mem_cons_self a l)
        · rw [if_neg hc] at hm
          exact Or.inl hm
      · exact Or.inr (List.mem_cons_of_mem a hm)
    · by_cases hc : best.2 < a.2
      · rw [if_pos hc] at hle
        exact le_trans (le_of_lt hc) hle
      · rw [if_neg hc] at hle
        exact hle
    · intro x hx
      rcases List.mem_cons.mp hx with hx | hx
      · subst hx
        by_cases hc : best.2 < x.2
        · rw [if_pos hc] at hle
          exact hle
        · rw [if_neg hc] at hle
          exact le_trans (le_of_not_lt hc) hle
      · exact hbound x hx

theorem getGroupLabel_some {t : Table} {p : KPIPlan} {lbl : String}
    (h : getGroupLabel t p = some lbl) :
    ∃ vals k v, groupedMetricValues t p = some vals ∧ (k, some v) ∈ vals ∧
      lbl = groupKeyToLabel k ∧ ∀ k2 v2, (k2, some v2) ∈ vals → v2 ≤ v := by
  rcases hmv : groupedMetricValues t p with _ | vals
  · simp [getGroupLabel, hmv] at h
  · cases hve : vals.isEmpty with
    | true => simp [getGroupLabel, hmv, hve] at h
    | false =>
      rcases hser : groupedSeries vals with _ | ⟨kv0, rest⟩
      · simp [getGroupLabel, hmv, hve, hser] at h
      · have heval : getGroupLabel t p = some (groupKeyToLabel (idxmaxGo rest kv0)) := by
          simp [getGroupLabel, hmv, hve, hser]
        rw [heval] at h
        have hl := Option.some.inj h
        obtain ⟨kvm, hmem, heq, hle, hbound⟩ := idxmaxGo_spec rest kv0
        have hkvm_mem : kvm ∈ groupedSeries vals := by
          rw [hser]
          rcases hmem with hm | hm
          · rw [hm]; exact List.mem_cons_self _ _
          · exact List.mem_cons_of_mem _ hm
        refine ⟨vals, kvm.1, kvm.2, rfl, ?_, ?_, ?_⟩
        · exact mem_groupedSeries.mp (by rwa [Prod.mk.eta])
        · rw [← hl, heq]
        · intro k2 v2 hk2
          have hk2s : (k2, v2) ∈ groupedSeries vals := mem_groupedSeries.mpr hk2
          rw [hser] at hk2s
          rcases List.mem_cons.mp hk2s with hm | hm
          · have hv2 : v2 = kv0.2 := congrArg Prod.snd hm
            rw [hv2]
            exact hle
          · exact hbound _ hm

/-- C9: `get_group_label` computes the per-group values over the table exactly
as given — it applies no time window and no filters before grouping, unlike
`execute_plan` and `build_breakdown` — so for the non-recursive metrics
`count`, `count_distinct`, `sum` and `mean`, the returned winning label is the
label of a group attaining the maximum per-group value over the unreduced
table. -/
theorem c9_group_label_unreduced_argmax (t : Table) (p : KPIPlan) (lbl : String)
    (_hm : p.metric = "count" ∨ p.metric = "count_distinct" ∨ p.metric = "sum" ∨
      p.metric = "mean")
    (h : getGroupLabel t p = some lbl) :
    ∃ vals k v, groupedMetricValues t p = some vals ∧ (k, some v) ∈ vals ∧
      lbl = groupKeyToLabel k ∧ ∀ k2 v2, (k2, some v2) ∈ vals → v2 ≤ v :=
  getGroupLabel_some h

theorem c9_witness :
    ∃ vals k v, groupedMetricValues c9T c9P = some vals ∧ (k, some v) ∈ vals ∧
      "B" = groupKeyToLabel k ∧ ∀ k2 v2, (k2, some v2) ∈ vals → v2 ≤ v :=
  c9_group_label_unreduced_argmax c9T c9P "B" (Or.inr (Or.inr (Or.inl rfl)))
    (by with_unfolding_all decide)

/-- C1: at a concrete `compute_kpis` job with one approved grouped KPI, the
stage handler completes without an exception, marks the job complete and
enqueues exactly one `generate_report` job, and persists the computed `value`
and `computed_at` — but the engine's non-absent `value_breakdown` is NOT
persisted to the record store: `_handle_compute_kpis` writes only `value` and
`computed_at`, so the stored KPI's `value_breakdown` stays `none`. -/
theorem c1_value_breakdown_not_persisted :
    (handleComputeKpis c1Job c1Msg c1St).2 = none ∧
    (computeValueBreakdown c1T c1Plan).2
      = some [⟨"B", 200, some (200/3)⟩, ⟨"A", 100, some (100/3)⟩] ∧
    getKpi (handleComputeKpis c1Job c1Msg c1St).1 "k1"
      = some ⟨"k1", "p1", "approved", c1Plan, some 300, none, some "T0"⟩ ∧
    getJob (handleComputeKpis c1Job c1Msg c1St).1 "j1"
      = some ⟨"j1", "p1", "compute_kpis", "complete", none⟩ ∧
    (handleComputeKpis c1Job c1Msg c1St).1.pending
      = [⟨"j2", "p1", "generate_report", none⟩] := by
  with_unfolding_all decide

theorem ack_inflight_ne (st : SysState) (receipt : String) :
    ∀ m ∈ (ackMessage st receipt).inflight, m.1 ≠ receipt := by
  intro m hm
  have h2 := (List.mem_filter.mp hm).2
  exact of_decide_eq_true h2

/-- C7: for every incoming message, the orchestrator acknowledges (deletes)
the message in every outcome; a message whose job record is missing is
acknowledged with no entity write; and when the dispatched stage handler
raises, the orchestrator's only writes are to mark that job failed with the
error recorded — it enqueues nothing (no retry). -/
theorem c7_orchestrator_ack_and_failure (handlers : String → Option Handler)
    (st : SysState) (receipt : String) (msg : JobMessage) :
    (∀ m ∈ (processMessage handlers st receipt msg).inflight, m.1 ≠ receipt) ∧
    (getJob st msg.job_id = none →
      (processMessage handlers st receipt msg).jobs = st.jobs ∧
      (processMessage handlers st receipt msg).kpis = st.kpis ∧
      (processMessage handlers st receipt msg).pending = st.pending ∧
      (processMessage handlers st receipt msg).inflight
        = st.inflight.filter fun m => m.1 ≠ receipt) ∧
    (∀ job stH e, getJob st msg.job_id = some job →
      (match handlers msg.stage with
        | none => (setJobStatus st job.job_id "running",
            some ("Unknown job stage: " ++ msg.stage))
        | some hd => hd job msg (setJobStatus st job.job_id "running")) = (stH, some e) →
      processMessage handlers st receipt msg
          = ackMessage (setJobFailed stH job.job_id e) receipt ∧
      (processMessage handlers st receipt msg).pending = stH.pending ∧
      (∀ j ∈ stH.jobs, j.job_id = job.job_id →
        { j with status := "failed", error := some e }
          ∈ (processMessage handlers st receipt msg).jobs)) := by
  refine ⟨?_, ?_, ?_⟩
  · rcases hj : getJob st msg.job_id with _ | job
    · have hpm : processMessage handlers st receipt msg = ackMessage st receipt := by
        simp only [processMessage, hj]
      rw [hpm]
      exact ack_inflight_ne st receipt
    · rcases hres : (match handlers msg.stage with
        | none => (setJobStatus st job.job_id "running",
            some ("Unknown job stage: " ++ msg.stage))
        | some hd => hd job msg (setJobStatus st job.job_id "running")) with ⟨stH, oe⟩
      rcases oe with _ | e
      · have hpm : processMessage handlers st receipt msg = ackMessage stH receipt := by
          simp only [processMessage, hj, hres]
        rw [hpm]
        exact ack_inflight_ne stH receipt
      · have hpm : processMessage handlers st receipt msg
            = ackMessage (setJobFailed stH job.job_id e) receipt := by
          simp only [processMessage, hj, hres]
        rw [hpm]
        exact ack_inflight_ne _ receipt
  · intro hj
    have hpm : processMessage handlers st receipt msg = ackMessage st receipt := by
      simp only [processMessage, hj]
    rw [hpm]
    exact ⟨rfl, rfl, rfl, rfl⟩
  · intro job stH e hj hres
    have hpm : processMessage handlers st receipt msg
        = ackMessage (setJobFailed stH job.job_id e) receipt := by
      simp only [processMessage, hj, hres]
    refine ⟨hpm, by rw [hpm]; rfl, ?_⟩
    intro j hjmem hid
    rw [hpm]
    show { j with status := "failed", error := some e } ∈ (setJobFailed stH job.job_id e).jobs
    refine List.mem_map.mpr ⟨j, hjmem, ?_⟩
    rw [if_pos hid]

theorem c7_witness :
    (⟨"j1", "p1", "compute_kpis", "failed", some "boom"⟩ : JobRec)
        ∈ (processMessage c7Handlers c7St "r1" c7Msg).jobs ∧
    (processMessage c7Handlers c7St "r1" c7Msg).pending = [] := by
  have h := c7_orchestrator_ack_and_failure c7Handlers c7St "r1" c7Msg
  obtain ⟨heq, hpend, hmem⟩ :=
    h.2.2 c7Job (setJobStatus c7St "j1" "running") "boom" rfl rfl
  constructor
  · exact hmem ⟨"j1", "p1", "compute_kpis", "running", none⟩ (by simp [setJobStatus, c7St, c7Job]) rfl
  · rw [hpend]
    rfl

theorem approveLoop_ok (pid : String) : ∀ (entries : List (String × String)) (st : SysState)
    (acc : List KPIRec) (st1 : SysState) (upd : List KPIRec),
    approveLoop pid st acc entries = (st1, upd, none) →
    upd.map KPIRec.status = acc.map KPIRec.status ++ entries.map Prod.snd ∧
    st1.pending = st.pending ∧ st1.jobs = st.jobs ∧ st1.freshJobId = st.freshJobId := by
  intro entries
  induction entries with
  | nil =>
    intro st acc st1 upd h
    simp only [approveLoop, Prod.mk.injEq] at h
    obtain ⟨h1, h2, -⟩ := h
    subst h1
    subst h2
    simp
  | cons ent rest ih =>
    intro st acc st1 upd h
    obtain ⟨kid, status⟩ := ent
    simp only [approveLoop] at h
    split at h
    · simp at h
    · split_ifs at h with hp
      · simp at h
      · obtain ⟨ih1, ih2, ih3, ih4⟩ := ih _ _ _ _ h
        refine ⟨?_, ih2, ih3, ih4⟩
        rw [ih1]
        simp

/-- C8: a bulk KPI-approval call that completes successfully and sets at least
one KPI to approved creates and enqueues exactly one new `compute_kpis` job;
a successful call that approves zero KPIs creates and enqueues nothing. -/
theorem c8_approval_enqueue (pid : String) (approvals : List (String × String))
    (st st1 : SysState) (res : List KPIRec)
    (h : approveKpis pid approvals st = (st1, .ok res)) :
    ((∃ e ∈ approvals, e.2 = "approved") →
      st1.jobs = st.jobs ++ [⟨st.freshJobId, pid, "compute_kpis", "queued", none⟩] ∧
      st1.pending = st.pending ++ [⟨st.freshJobId, pid, "compute_kpis", none⟩]) ∧
    ((∀ e ∈ approvals, e.2 ≠ "approved") →
      st1.jobs = st.jobs ∧ st1.pending = st.pending) := by
  rcases hl : approveLoop pid st [] approvals with ⟨stL, upd, oe⟩
  rcases oe with _ | e
  · obtain ⟨hmap, hpend, hjobs, hfresh⟩ := approveLoop_ok pid approvals st [] stL upd hl
    simp only [List.map_nil, List.nil_append] at hmap
    by_cases hemp : (upd.filter fun k => k.status = "approved").isEmpty = true
    · have happ : approveKpis pid approvals st = (stL, .ok upd) := by
        simp only [approveKpis, hl, hemp, if_true]
      rw [happ] at h
      simp only [Prod.mk.injEq, Except.ok.injEq] at h
      obtain ⟨hst, hupd⟩ := h
      subst hst
      constructor
      · rintro ⟨ent, hent, hents⟩
        exfalso
        have hmem : "approved" ∈ upd.map KPIRec.status := by
          rw [hmap]
          exact List.mem_map.mpr ⟨ent, hent, hents⟩
        obtain ⟨k, hk, hks⟩ := List.mem_map.mp hmem
        have : k ∈ upd.filter fun k => k.status = "approved" :=
          List.mem_filter.mpr ⟨hk, decide_eq_true hks⟩
        rw [List.isEmpty_iff.mp hemp] at this
        cases this
      · intro _
        exact ⟨hjobs, hpend⟩
    · have happ : approveKpis pid approvals st =
          ({ { stL with jobs := stL.jobs
                ++ [(⟨stL.freshJobId, pid, "compute_kpis", "queued", none⟩ : JobRec)] }
              with pending := stL.pending
                ++ [(⟨stL.freshJobId, pid, "compute_kpis", none⟩ : JobMessage)] },
            .ok upd) := by
        simp [approveKpis, hl, hemp]
      rw [happ] at h
      simp only [Prod.mk.injEq, Except.ok.injEq] at h
      obtain ⟨hst, hupd⟩ := h
      subst hst
      constructor
      · intro _
        rw [hfresh] at *
        exact ⟨by rw [hjobs], by rw [hpend]⟩
      · intro hall
        exfalso
        apply hemp
        rw [List.isEmpty_iff, List.filter_eq_nil_iff]
        intro k hk hks
        have hmem : k.status ∈ upd.map KPIRec.status := List.mem_map.mpr ⟨k, hk, rfl⟩
        rw [hmap] at hmem
        obtain ⟨ent, hent, hents⟩ := List.mem_map.mp hmem
        exact hall ent hent (hents.trans (of_decide_eq_true hks))
  · have happ : approveKpis pid approvals st = (stL, .error e) := by
      simp only [approveKpis, hl]
    rw [happ] at h
    simp at h

theorem c8_witness :
    c8St1.jobs = c8St.jobs ++ [⟨"newjob", "p1", "compute_kpis", "queued", none⟩] ∧
    c8St1.pending = c8St.pending ++ [⟨"newjob", "p1", "compute_kpis", none⟩] :=
  (c8_approval_enqueue "p1" [("k1", "approved")] c8St c8St1
      [{ c8K with status := "approved" }] rfl).1
    ⟨("k1", "approved"), by simp, rfl⟩

theorem approveLoop_append (pid : String) : ∀ (xs ys : List (String × String)) (st : SysState)
    (acc : List KPIRec),
    approveLoop pid st acc (xs ++ ys) =
      (match approveLoop pid st acc xs with
       | (st2, acc2, none) => approveLoop pid st2 acc2 ys
       | (st2, acc2, some e) => (st2, acc2, some e)) := by
  intro xs
  induction xs with
  | nil => intro ys st acc; rfl
  | cons ent rest ih =>
    intro ys st acc
    obtain ⟨kid, status⟩ := ent
    simp only [List.cons_append, approveLoop]
    rcases getKpi st kid with _ | item
    · rfl
    · by_cases hp : item.project_id ≠ pid
      · simp [hp]
      · simp only [hp, if_false]
        exact ih ys (setKpiStatus st kid status) (acc ++ [{ item with status := status }])

/-- C10: the bulk approval call is not atomic — when the approvals mapping
reaches an entry whose KPI id does not exist or belongs to a different project,
the call returns a 404 error, the status updates applied to the earlier
entries remain persisted (the returned state is the state after processing the
prefix, with no rollback), and no `compute_kpis` job is created or enqueued. -/
theorem c10_approval_not_atomic (pid : String) (st : SysState)
    (pre : List (String × String)) (kbad sbad : String) (rest : List (String × String))
    (stP : SysState) (accP : List KPIRec)
    (hpre : approveLoop pid st [] pre = (stP, accP, none))
    (hbad : ∀ item, getKpi stP kbad = some item → item.project_id ≠ pid) :
    approveKpis pid (pre ++ (kbad, sbad) :: rest) st
        = (stP, .error ⟨404, "KPI " ++ kbad ++ " not found"⟩) ∧
    stP.pending = st.pending ∧ stP.jobs = st.jobs := by
  have hloop : approveLoop pid st [] (pre ++ (kbad, sbad) :: rest)
      = (stP, accP, some ⟨404, "KPI " ++ kbad ++ " not found"⟩) := by
    rw [approveLoop_append, hpre]
    simp only [approveLoop]
    rcases hk : getKpi stP kbad with _ | item
    · rfl
    · have hp := hbad item hk
      simp [hp]
  have hok := approveLoop_ok pid pre st [] stP accP hpre
  refine ⟨?_, hok.2.1, hok.2.2.1⟩
  simp only [approveKpis, hloop]

theorem c10_witness :
    approveKpis "p1" [("k1", "approved"), ("kX", "rejected")] c10St
        = (c10StP, .error ⟨404, "KPI kX not found"⟩) ∧
    c10StP.pending = c10St.pending ∧ c10StP.jobs = c10St.jobs :=
  c10_approval_not_atomic "p1" c10St [("k1", "approved")] "kX" "rejected" []
    c10StP [{ c10K with status := "approved" }] rfl
    (by
      intro item h
      rw [show getKpi c10StP "kX" = none from rfl] at h
      cases h)

end Argus
